import Mathlib

/-!
# Servo PWM controller for the RP2040 (`pwm-with-RP2040.c`)

A shallow embedding of the single source file of the repository.

* `pulse_to_level` is the pure clamp of lines 40-45, with the C integer
  conversions written out (`uint32_t` parameter, `uint16_t` result).
* `main` never returns, so it is embedded as a step function on
  configurations, one step per basic block of the control-flow graph of
  lines 47-101.  The calls into the Pico SDK are recorded, in program order,
  as a log of `Event`s; the SDK itself is not part of the repository.
-/

namespace ServoPwm

/-! ## Constants (lines 26-37) -/

def SERVO_PIN : Nat := 22
def LED_RGB_PIN : Nat := 12
def PERIOD_US : Nat := 20000
def SERVO_MIN_US : Nat := 500
def SERVO_MID_US : Nat := 1470
def SERVO_MAX_US : Nat := 2400
def STEP_US : Nat := 5
def DELAY_MS : Nat := 10

/-! ## C integer conversions -/

/-- Conversion of a value to `uint16_t`: reduction modulo `2^16`. -/
def to_uint16 (x : Nat) : Nat := x % 2 ^ 16

/-- Conversion of a value to `uint32_t`: reduction modulo `2^32`. -/
def to_uint32 (x : Int) : Nat := (x % 2 ^ 32).toNat

/-- Result of an `int32_t` operation, wrapped into `[-2^31, 2^31)`. -/
def to_int32 (x : Int) : Int := (x + 2 ^ 31) % 2 ^ 32 - 2 ^ 31

/-! ## `pulse_to_level` (lines 40-45) -/

/-- The value of the local `pulse_us` after the `if` of lines 41-43. -/
def clamped_pulse (pulse_us : Nat) : Nat :=
  if pulse_us > PERIOD_US then PERIOD_US else pulse_us

/-- Lines 40-45: `static inline uint16_t pulse_to_level(uint32_t pulse_us)`.
The argument is the value of the `uint32_t` parameter. -/
def pulse_to_level (pulse_us : Nat) : Nat :=
  to_uint16 (clamped_pulse pulse_us)

/-! ## Hardware log -/

/-- Pin function selected by `gpio_set_function`. -/
inductive GpioFunction
  | GPIO_FUNC_PWM
  deriving DecidableEq, Repr

/-- Direction passed to `gpio_set_dir`. -/
inductive GpioDir
  | GPIO_IN
  | GPIO_OUT
  deriving DecidableEq, Repr

/-- One call into the Pico SDK, with its arguments. -/
inductive Event
  | stdio_init_all
  | gpio_set_function (gpio : Nat) (fn : GpioFunction)
  | pwm_set_wrap (slice_num : Nat) (wrap : Nat)
  | pwm_set_clkdiv (slice_num : Nat) (divider : Nat)
  | pwm_set_chan_level (slice_num : Nat) (channel : Nat) (level : Nat)
  | pwm_set_enabled (slice_num : Nat) (enabled : Bool)
  | gpio_init (gpio : Nat)
  | gpio_set_dir (gpio : Nat) (dir : GpioDir)
  | sleep_ms (ms : Nat)
  | gpio_put (gpio : Nat) (value : Bool)
  deriving DecidableEq, Repr

/-- Results of `pwm_gpio_to_slice_num(SERVO_PIN)` and
`pwm_gpio_to_channel(SERVO_PIN)` (lines 52-53).  Both are SDK functions, so
their values are parameters of the model. -/
structure PwmPin where
  slice_num : Nat
  channel : Nat
  deriving DecidableEq, Repr

/-! ## `main` (lines 47-101) as a control-flow graph -/

/-- Program points of `main`. -/
inductive Loc
  /-- Line 48, before anything ran. -/
  | entry
  /-- Line 67, after the configuration of lines 48-65. -/
  | fixed_phase
  /-- Line 80, the test of `while (true)`. -/
  | while_head
  /-- Line 82, the test of the first `for`, with the value of its
  `uint32_t pulse`. -/
  | ascend_head (pulse : Nat)
  /-- Line 91, the test of the second `for`, with the value of its
  `int32_t pulse`. -/
  | descend_head (pulse : Int)
  /-- Line 100, `return 0`. -/
  | ret
  deriving DecidableEq, Repr

/-- A configuration of the running program. -/
structure Config where
  /-- Program point. -/
  loc : Loc
  /-- The local `bool led_state`. -/
  led_state : Bool
  /-- SDK calls made so far, oldest first. -/
  out : List Event
  /-- Ghost counter: how many `for` bodies (sweep steps) have run. -/
  sweep_steps : Nat
  deriving DecidableEq, Repr

/-- Lines 48-65: configuration of the PWM slice and of the LED pin.  The
divider `125.0f` is the integer 125. -/
def init_block (hw : PwmPin) : List Event :=
  [ Event.stdio_init_all,
    Event.gpio_set_function SERVO_PIN GpioFunction.GPIO_FUNC_PWM,
    Event.pwm_set_wrap hw.slice_num (PERIOD_US - 1),
    Event.pwm_set_clkdiv hw.slice_num 125,
    Event.pwm_set_chan_level hw.slice_num hw.channel (pulse_to_level SERVO_MIN_US),
    Event.pwm_set_enabled hw.slice_num true,
    Event.gpio_init LED_RGB_PIN,
    Event.gpio_set_dir LED_RGB_PIN GpioDir.GPIO_OUT ]

/-- Lines 67-77: the three fixed positions. -/
def fixed_block (hw : PwmPin) : List Event :=
  [ Event.pwm_set_chan_level hw.slice_num hw.channel (pulse_to_level SERVO_MAX_US),
    Event.sleep_ms 5000,
    Event.pwm_set_chan_level hw.slice_num hw.channel (pulse_to_level SERVO_MID_US),
    Event.sleep_ms 5000,
    Event.pwm_set_chan_level hw.slice_num hw.channel (pulse_to_level SERVO_MIN_US),
    Event.sleep_ms 5000 ]

/-- Lines 83-87 and 92-96: the common body of the two `for` loops, run with
`pulse_us` as the (converted) argument of `pulse_to_level`. -/
def sweep_body (hw : PwmPin) (pulse_us : Nat) (c : Config) : Config :=
  { c with
    led_state := !c.led_state
    out := c.out ++
      [ Event.pwm_set_chan_level hw.slice_num hw.channel (pulse_to_level pulse_us),
        Event.sleep_ms DELAY_MS,
        Event.gpio_put LED_RGB_PIN (!c.led_state) ]
    sweep_steps := c.sweep_steps + 1 }

/-- One basic block of `main`.  `none` means the program has returned. -/
def step (hw : PwmPin) (c : Config) : Option Config :=
  match c.loc with
  | Loc.entry =>
      some { c with loc := Loc.fixed_phase, led_state := false,
                    out := c.out ++ init_block hw }
  | Loc.fixed_phase =>
      some { c with loc := Loc.while_head, out := c.out ++ fixed_block hw }
  | Loc.while_head =>
      if true then some { c with loc := Loc.ascend_head SERVO_MIN_US }
      else some { c with loc := Loc.ret }
  | Loc.ascend_head pulse =>
      if pulse ≤ SERVO_MAX_US then
        some { sweep_body hw pulse c with
               loc := Loc.ascend_head ((pulse + STEP_US) % 2 ^ 32) }
      else some { c with loc := Loc.descend_head (SERVO_MAX_US : Int) }
  | Loc.descend_head pulse =>
      if pulse ≥ (SERVO_MIN_US : Int) then
        some { sweep_body hw (to_uint32 pulse) c with
               loc := Loc.descend_head (to_int32 (pulse - (STEP_US : Int))) }
      else some { c with loc := Loc.while_head }
  | Loc.ret => none

/-- Configuration at the start of `main`. -/
def start : Config :=
  { loc := Loc.entry, led_state := false, out := [], sweep_steps := 0 }

/-- Runs `k` basic blocks, stopping early if the program returns. -/
def run (hw : PwmPin) : Nat → Config → Config
  | 0, c => c
  | k + 1, c =>
    match step hw c with
    | some c' => run hw k c'
    | none => c

/-! ## Observations on the log -/

/-- Duty levels written with `pwm_set_chan_level`, oldest first. -/
def pwm_levels : List Event → List Nat
  | [] => []
  | Event.pwm_set_chan_level _ _ level :: es => level :: pwm_levels es
  | _ :: es => pwm_levels es

/-- Values written with `gpio_put`, oldest first. -/
def led_writes : List Event → List Bool
  | [] => []
  | Event.gpio_put _ value :: es => value :: led_writes es
  | _ :: es => led_writes es

/-- Total of the `sleep_ms` delays in a log, in milliseconds. -/
def total_sleep_ms : List Event → Nat
  | [] => 0
  | Event.sleep_ms ms :: es => ms + total_sleep_ms es
  | _ :: es => total_sleep_ms es

/-- The widths handed to `pulse_to_level` by the block at a program point, as
the values of the argument expressions before any conversion, in program
order: line 59 in the configuration block, lines 68, 72 and 76 in the fixed
phase, the `uint32_t pulse` of line 83 and the `int32_t pulse` of line 92
when the loop test passes, and nothing elsewhere. -/
def requested_pulse : Loc → List Int
  | Loc.entry => [(SERVO_MIN_US : Int)]
  | Loc.fixed_phase => [(SERVO_MAX_US : Int), (SERVO_MID_US : Int), (SERVO_MIN_US : Int)]
  | Loc.ascend_head pulse => if pulse ≤ SERVO_MAX_US then [(pulse : Int)] else []
  | Loc.descend_head pulse => if pulse ≥ (SERVO_MIN_US : Int) then [pulse] else []
  | _ => []

/-! ## PWM timing -/

/-- Specification side: the widths of the ascend sub-phase, `500 + 5k` for
`k = 0, ..., 380`. -/
def spec_ascend_levels : List Nat :=
  (List.range 381).map (fun k => 500 + 5 * k)

/-- Specification side: the widths of the descend sub-phase, `2400 - 5k` for
`k = 0, ..., 380`. -/
def spec_descend_levels : List Nat :=
  (List.range 381).map (fun k => 2400 - 5 * k)

/-- Specification side: the log of a run of sweep steps that writes the given
levels in order, entered with LED state `led`: each step writes its level,
waits 10 ms, and writes the inverted LED state. -/
def spec_sweep_log (hw : PwmPin) (led : Bool) : List Nat → List Event
  | [] => []
  | level :: rest =>
      Event.pwm_set_chan_level hw.slice_num hw.channel level ::
      Event.sleep_ms 10 ::
      Event.gpio_put 12 (!led) ::
      spec_sweep_log hw (!led) rest

/-- Specification side: the log once `m` passes of the sweep loop are over. -/
def spec_log_after_passes (hw : PwmPin) : Nat → List Event
  | 0 => init_block hw ++ fixed_block hw
  | m + 1 =>
      spec_log_after_passes hw m ++
        (spec_sweep_log hw false spec_ascend_levels ++
         spec_sweep_log hw true spec_descend_levels)

/-- Widths `p, p + 5, ...`, `n` of them. -/
def ramp_up (p : Nat) : Nat → List Nat
  | 0 => []
  | n + 1 => p :: ramp_up (p + 5) n

/-- Widths `p, p - 5, ...`, `n` of them. -/
def ramp_down (p : Nat) : Nat → List Nat
  | 0 => []
  | n + 1 => p :: ramp_down (p - 5) n

/-- LED state after `n` inversions. -/
def toggled (led : Bool) (n : Nat) : Bool :=
  xor led (decide (n % 2 = 1))

/-- Invariant of the configurations `main` reaches. -/
def Inv (c : Config) : Prop :=
  c.led_state = decide (c.sweep_steps % 2 = 1) ∧
  (led_writes c.out).length = c.sweep_steps ∧
  (led_writes c.out).getLast? = (if c.sweep_steps = 0 then none else some c.led_state) ∧
  (∀ l ∈ pwm_levels c.out, 500 ≤ l ∧ l ≤ 2400) ∧
  (match c.loc with
    | Loc.entry => c.sweep_steps = 0
    | Loc.ascend_head p => 500 ≤ p ∧ p ≤ 2405
    | Loc.descend_head p => 495 ≤ p ∧ p ≤ 2400
    | Loc.ret => False
    | _ => True)

/-! ## `pulse_to_level` -/

theorem clamped_pulse_le (w : Nat) : clamped_pulse w ≤ PERIOD_US := by
  unfold clamped_pulse
  split <;> omega

theorem pulse_to_level_eq (w : Nat) :
    pulse_to_level w = if w ≤ 20000 then w else 20000 := by
  have h := clamped_pulse_le w
  unfold pulse_to_level to_uint16
  unfold clamped_pulse PERIOD_US at *
  split_ifs at * <;> omega

/-- C1: for every `uint32_t` width `w`, `pulse_to_level w` is `w` when
`w ≤ 20000` and `20000` when `w > 20000`, and the conversion of the clamped
value to `uint16_t` leaves it unchanged. -/
theorem pulse_to_level_saturates (w : Nat) (_hw : w < 2 ^ 32) :
    pulse_to_level w = (if w ≤ 20000 then w else 20000) ∧
    to_uint16 (clamped_pulse w) = clamped_pulse w := by
  refine ⟨pulse_to_level_eq w, ?_⟩
  have h := clamped_pulse_le w
  unfold to_uint16
  unfold PERIOD_US at h
  omega

theorem pulse_to_level_saturates_witness :
    (70000 : Nat) < 2 ^ 32 ∧
    (pulse_to_level 70000 = (if 70000 ≤ 20000 then 70000 else 20000) ∧
     to_uint16 (clamped_pulse 70000) = clamped_pulse 70000) :=
  ⟨by decide, pulse_to_level_saturates 70000 (by decide)⟩

/-! ## Running the control-flow graph -/

theorem run_of_step_none (hw : PwmPin) (k : Nat) (c : Config)
    (h : step hw c = none) : run hw k c = c := by
  cases k with
  | zero => rfl
  | succ k => simp [run, h]

theorem run_add (hw : PwmPin) (a b : Nat) (c : Config) :
    run hw (a + b) c = run hw b (run hw a c) := by
  induction a generalizing c with
  | zero => simp [run]
  | succ a ih =>
    rw [Nat.add_right_comm]
    cases h : step hw c with
    | none => simp [run, h, run_of_step_none hw b c h]
    | some c' => simp [run, h, ih]

theorem run_succ (hw : PwmPin) (k : Nat) (c c' : Config)
    (h : step hw c = some c') : run hw (k + 1) c = run hw k c' := by
  simp [run, h]

theorem toggled_succ (led : Bool) (n : Nat) :
    toggled (!led) n = toggled led (n + 1) := by
  unfold toggled
  rcases Nat.mod_two_eq_zero_or_one n with h | h
  · have h1 : (n + 1) % 2 = 1 := by omega
    cases led <;> simp [h, h1]
  · have h1 : (n + 1) % 2 = 0 := by omega
    cases led <;> simp [h, h1]

theorem toggled_zero (led : Bool) : toggled led 0 = led := by
  cases led <;> rfl

theorem step_ascend_body (hw : PwmPin) (p : Nat) (led : Bool) (out : List Event)
    (s : Nat) (hp : p ≤ 2400) :
    step hw ⟨Loc.ascend_head p, led, out, s⟩ =
      some ⟨Loc.ascend_head (p + 5), !led,
        out ++ spec_sweep_log hw led [p], s + 1⟩ := by
  have h2 : pulse_to_level p = p := by
    rw [pulse_to_level_eq]; split_ifs <;> omega
  simp [step, sweep_body, SERVO_MAX_US, STEP_US, DELAY_MS, LED_RGB_PIN, hp, h2,
    spec_sweep_log]
  omega

theorem run_ascend (hw : PwmPin) (n : Nat) :
    ∀ (p : Nat) (led : Bool) (out : List Event) (s : Nat), p + 5 * n ≤ 2405 →
      run hw n ⟨Loc.ascend_head p, led, out, s⟩ =
        ⟨Loc.ascend_head (p + 5 * n), toggled led n,
          out ++ spec_sweep_log hw led (ramp_up p n), s + n⟩ := by
  induction n with
  | zero =>
    intro p led out s _
    simp [run, ramp_up, spec_sweep_log, toggled_zero]
  | succ n ih =>
    intro p led out s h
    rw [run_succ hw n _ _ (step_ascend_body hw p led out s (by omega))]
    rw [ih (p + 5) (!led) _ (s + 1) (by omega)]
    simp [ramp_up, spec_sweep_log, toggled_succ]
    omega

theorem to_uint32_ofNat (q : Nat) (h : q < 2 ^ 32) : to_uint32 (q : Int) = q := by
  unfold to_uint32
  omega

theorem to_int32_sub_step (q : Nat) (h1 : 5 ≤ q) (h2 : q < 2 ^ 31) :
    to_int32 ((q : Int) - 5) = ((q - 5 : Nat) : Int) := by
  unfold to_int32
  omega

theorem step_descend_body (hw : PwmPin) (q : Nat) (led : Bool) (out : List Event)
    (s : Nat) (h1 : 500 ≤ q) (h2 : q ≤ 2400) :
    step hw ⟨Loc.descend_head (q : Int), led, out, s⟩ =
      some ⟨Loc.descend_head ((q - 5 : Nat) : Int), !led,
        out ++ spec_sweep_log hw led [q], s + 1⟩ := by
  have h3 : pulse_to_level q = q := by
    rw [pulse_to_level_eq]; split_ifs <;> omega
  have h4 : to_uint32 (q : Int) = q := to_uint32_ofNat q (by omega)
  have h5 : to_int32 ((q : Int) - 5) = ((q - 5 : Nat) : Int) :=
    to_int32_sub_step q (by omega) (by omega)
  have h6 : (500 : Int) ≤ (q : Int) := by omega
  simp only [step, sweep_body, SERVO_MIN_US, STEP_US, DELAY_MS, LED_RGB_PIN,
    spec_sweep_log, Nat.cast_ofNat, ge_iff_le, h6, if_true, h4, h3, h5]

theorem run_descend (hw : PwmPin) (n : Nat) :
    ∀ (q : Nat) (led : Bool) (out : List Event) (s : Nat),
      495 + 5 * n ≤ q → q ≤ 2400 →
      run hw n ⟨Loc.descend_head (q : Int), led, out, s⟩ =
        ⟨Loc.descend_head ((q - 5 * n : Nat) : Int), toggled led n,
          out ++ spec_sweep_log hw led (ramp_down q n), s + n⟩ := by
  induction n with
  | zero =>
    intro q led out s _ _
    simp [run, ramp_down, spec_sweep_log, toggled_zero]
  | succ n ih =>
    intro q led out s h1 h2
    rw [run_succ hw n _ _ (step_descend_body hw q led out s (by omega) h2)]
    rw [ih (q - 5) (!led) _ (s + 1) (by omega) (by omega)]
    have h3 : q - 5 - 5 * n = q - 5 * (n + 1) := by omega
    simp [ramp_down, spec_sweep_log, toggled_succ, h3]
    omega

theorem ramp_up_eq_map (p n : Nat) :
    ramp_up p n = (List.range n).map (fun k => p + 5 * k) := by
  induction n generalizing p with
  | zero => rfl
  | succ n ih =>
    rw [ramp_up, ih, List.range_succ_eq_map]
    simp only [List.map_cons, List.map_map, Nat.mul_zero, Nat.add_zero, List.cons.injEq,
      true_and]
    apply List.map_congr_left
    intro k _
    simp only [Function.comp_apply]
    omega

theorem ramp_down_eq_map (p n : Nat) :
    ramp_down p n = (List.range n).map (fun k => p - 5 * k) := by
  induction n generalizing p with
  | zero => rfl
  | succ n ih =>
    rw [ramp_down, ih, List.range_succ_eq_map]
    simp only [List.map_cons, List.map_map, Nat.mul_zero, Nat.sub_zero, List.cons.injEq,
      true_and]
    apply List.map_congr_left
    intro k _
    simp only [Function.comp_apply]
    omega

theorem step_while_head (hw : PwmPin) (led : Bool) (out : List Event) (s : Nat) :
    step hw ⟨Loc.while_head, led, out, s⟩ = some ⟨Loc.ascend_head 500, led, out, s⟩ := by
  simp [step, SERVO_MIN_US]

theorem step_ascend_exit (hw : PwmPin) (led : Bool) (out : List Event) (s : Nat) :
    step hw ⟨Loc.ascend_head 2405, led, out, s⟩ =
      some ⟨Loc.descend_head 2400, led, out, s⟩ := by
  simp [step, SERVO_MAX_US]

theorem step_descend_exit (hw : PwmPin) (led : Bool) (out : List Event) (s : Nat) :
    step hw ⟨Loc.descend_head 495, led, out, s⟩ =
      some ⟨Loc.while_head, led, out, s⟩ := by
  simp [step, SERVO_MIN_US]

/-- From the loop head, 383 blocks later the ascend sub-phase is over. -/
theorem run_ascend_phase (hw : PwmPin) (led : Bool) (out : List Event) (s : Nat) :
    run hw 383 ⟨Loc.while_head, led, out, s⟩ =
      ⟨Loc.descend_head 2400, !led,
        out ++ spec_sweep_log hw led spec_ascend_levels, s + 381⟩ := by
  have e : (383 : Nat) = 381 + 1 + 1 := rfl
  rw [e, run_succ hw _ _ _ (step_while_head hw led out s), run_add,
    run_ascend hw 381 500 led out s (by omega)]
  rw [run_succ hw 0 _ _ (step_ascend_exit hw _ _ _)]
  simp [run, toggled, ramp_up_eq_map, spec_ascend_levels]

/-- From the start of the descend sub-phase, 382 blocks later the loop head
is reached again. -/
theorem run_descend_phase (hw : PwmPin) (led : Bool) (out : List Event) (s : Nat) :
    run hw 382 ⟨Loc.descend_head 2400, led, out, s⟩ =
      ⟨Loc.while_head, !led,
        out ++ spec_sweep_log hw led spec_descend_levels, s + 381⟩ := by
  have e : (382 : Nat) = 381 + 1 := rfl
  have h := run_descend hw 381 2400 led out s (by omega) (by omega)
  simp only [Nat.cast_ofNat] at h
  rw [e, run_add, h]
  have e2 : ((2400 - 5 * 381 : Nat) : Int) = 495 := by norm_num
  rw [e2, run_succ hw 0 _ _ (step_descend_exit hw _ _ _)]
  simp [run, toggled, ramp_down_eq_map, spec_descend_levels]

theorem run_pass (hw : PwmPin) (led : Bool) (out : List Event) (s : Nat) :
    run hw 765 ⟨Loc.while_head, led, out, s⟩ =
      ⟨Loc.while_head, led,
        out ++ (spec_sweep_log hw led spec_ascend_levels ++
                spec_sweep_log hw (!led) spec_descend_levels), s + 762⟩ := by
  have e : (765 : Nat) = 383 + 382 := rfl
  rw [e, run_add, run_ascend_phase, run_descend_phase]
  simp

theorem run_two (hw : PwmPin) :
    run hw 2 start = ⟨Loc.while_head, false, init_block hw ++ fixed_block hw, 0⟩ := by
  simp [run, step, start]

theorem run_passes (hw : PwmPin) (m : Nat) :
    run hw (2 + 765 * m) start =
      ⟨Loc.while_head, false, spec_log_after_passes hw m, 762 * m⟩ := by
  induction m with
  | zero => simpa [spec_log_after_passes] using run_two hw
  | succ m ih =>
    have e : 2 + 765 * (m + 1) = (2 + 765 * m) + 765 := by ring
    rw [e, run_add, ih, run_pass]
    simp only [spec_log_after_passes, Bool.not_false, Config.mk.injEq, true_and]
    ring

theorem pwm_levels_append (xs ys : List Event) :
    pwm_levels (xs ++ ys) = pwm_levels xs ++ pwm_levels ys := by
  induction xs with
  | nil => rfl
  | cons e xs ih => cases e <;> simp [pwm_levels, ih]

theorem led_writes_append (xs ys : List Event) :
    led_writes (xs ++ ys) = led_writes xs ++ led_writes ys := by
  induction xs with
  | nil => rfl
  | cons e xs ih => cases e <;> simp [led_writes, ih]

theorem pwm_levels_spec_sweep_log (hw : PwmPin) (led : Bool) (levels : List Nat) :
    pwm_levels (spec_sweep_log hw led levels) = levels := by
  induction levels generalizing led with
  | nil => rfl
  | cons l ls ih => simp [spec_sweep_log, pwm_levels, ih]

/-- C3: in every pass of the sweep loop (pass `m + 1` starts at the loop head
after `2 + 765 * m` blocks), the ascend sub-phase appends to the log exactly
the steps for the levels `500 + 5k`, `k = 0..380`, in order, and the descend
sub-phase then exactly the steps for `2400 - 5k`, `k = 0..380`; every level
write is directly followed by `sleep_ms 10` (and the LED write). -/
theorem sweep_pass_levels (hw : PwmPin) (m : Nat) :
    (run hw (2 + 765 * m) start).loc = Loc.while_head ∧
    run hw (2 + 765 * m + 383) start =
      ⟨Loc.descend_head 2400, true,
        (run hw (2 + 765 * m) start).out ++
          spec_sweep_log hw false spec_ascend_levels, 762 * m + 381⟩ ∧
    run hw (2 + 765 * m + 383 + 382) start =
      ⟨Loc.while_head, false,
        (run hw (2 + 765 * m + 383) start).out ++
          spec_sweep_log hw true spec_descend_levels, 762 * m + 381 + 381⟩ ∧
    pwm_levels (spec_sweep_log hw false spec_ascend_levels) =
      (List.range 381).map (fun k => 500 + 5 * k) ∧
    pwm_levels (spec_sweep_log hw true spec_descend_levels) =
      (List.range 381).map (fun k => 2400 - 5 * k) ∧
    spec_ascend_levels.getLast? = some 2400 ∧
    spec_descend_levels.getLast? = some 500 := by
  have h1 := run_passes hw m
  have h2 : run hw (2 + 765 * m + 383) start =
      ⟨Loc.descend_head 2400, true,
        (run hw (2 + 765 * m) start).out ++
          spec_sweep_log hw false spec_ascend_levels, 762 * m + 381⟩ := by
    rw [run_add, h1, run_ascend_phase]; rfl
  refine ⟨by rw [h1], h2, ?_, ?_, ?_, ?_, ?_⟩
  · rw [run_add, h2, run_descend_phase]; rfl
  · rw [pwm_levels_spec_sweep_log]; rfl
  · rw [pwm_levels_spec_sweep_log]; rfl
  · rw [spec_ascend_levels, show List.range 381 = List.range 380 ++ [380] from
      List.range_succ 380]
    simp [List.getLast?_append]
  · rw [spec_descend_levels, show List.range 381 = List.range 380 ++ [380] from
      List.range_succ 380]
    simp [List.getLast?_append]

/-- C4: between the configuration block and the first sweep step the program
writes exactly the duty levels 2400, 1470, 500, in this order, each directly
followed by `sleep_ms 5000` (15000 ms in all), and writes nothing to the LED
pin; the next block that changes the log is the first sweep step. -/
theorem fixed_phase_log (hw : PwmPin) :
    run hw 1 start = ⟨Loc.fixed_phase, false, init_block hw, 0⟩ ∧
    run hw 2 start =
      ⟨Loc.while_head, false,
        init_block hw ++
          [ Event.pwm_set_chan_level hw.slice_num hw.channel 2400, Event.sleep_ms 5000,
            Event.pwm_set_chan_level hw.slice_num hw.channel 1470, Event.sleep_ms 5000,
            Event.pwm_set_chan_level hw.slice_num hw.channel 500, Event.sleep_ms 5000 ],
        0⟩ ∧
    run hw 3 start = { run hw 2 start with loc := Loc.ascend_head 500 } ∧
    (run hw 4 start).sweep_steps = 1 ∧
    pwm_levels (fixed_block hw) = [2400, 1470, 500] ∧
    total_sleep_ms (fixed_block hw) = 15000 ∧
    led_writes (fixed_block hw) = [] := by
  refine ⟨rfl, rfl, rfl, rfl, rfl, rfl, rfl⟩

/-- C6, as the code behaves: after the three fixed holds and the first five
ascend steps the duty levels written since the configuration block are
2400, 1470, 500, 500, 505, 510, 515, 520 and the LED values written at sweep
steps 1 to 5 are true, false, true, false, true; the level 525 is written by
the sixth ascend step. -/
theorem example_scenario_five_steps (hw : PwmPin) :
    (run hw 8 start).sweep_steps = 5 ∧
    (pwm_levels (run hw 8 start).out).tail =
      [2400, 1470, 500, 500, 505, 510, 515, 520] ∧
    led_writes (run hw 8 start).out = [true, false, true, false, true] ∧
    (run hw 9 start).sweep_steps = 6 ∧
    (pwm_levels (run hw 9 start).out).tail =
      [2400, 1470, 500, 500, 505, 510, 515, 520, 525] := by
  refine ⟨rfl, rfl, rfl, rfl, rfl⟩

/-- C2, as stated, fails: the level returned for the width 20000 is 20000,
which is above `PERIOD_US - 1 = 19999`, the wrap value. -/
theorem pulse_to_level_at_period :
    pulse_to_level 20000 = 20000 ∧ ¬ pulse_to_level 20000 ≤ PERIOD_US - 1 := by
  decide

/-- C2, as the code behaves: for every `uint32_t` width `w` the level
returned by `pulse_to_level` is at most `PERIOD_US = 20000`, and it is at
most `PERIOD_US - 1 = 19999` exactly when `w ≤ 19999`. -/
theorem pulse_to_level_le_period (w : Nat) (_hw : w < 2 ^ 32) :
    pulse_to_level w ≤ PERIOD_US ∧ pulse_to_level w ≤ 20000 ∧
    (pulse_to_level w ≤ PERIOD_US - 1 ↔ w ≤ 19999) := by
  rw [pulse_to_level_eq]
  simp only [PERIOD_US]
  split_ifs <;> omega

theorem pulse_to_level_le_period_witness :
    (70000 : Nat) < 2 ^ 32 ∧
    (pulse_to_level 70000 ≤ PERIOD_US ∧ pulse_to_level 70000 ≤ 20000 ∧
     (pulse_to_level 70000 ≤ PERIOD_US - 1 ↔ 70000 ≤ 19999)) :=
  ⟨by decide, pulse_to_level_le_period 70000 (by decide)⟩

theorem pulse_to_level_mono (a b : Nat) (h : a ≤ b) :
    pulse_to_level a ≤ pulse_to_level b := by
  rw [pulse_to_level_eq, pulse_to_level_eq]
  split_ifs <;> omega

/-- C10: on `uint32_t` arguments `pulse_to_level` is monotone, and applying
it to its own result (widened back to `uint32_t`) changes nothing. -/
theorem pulse_to_level_mono_idem (a b : Nat) (_ha : a < 2 ^ 32) (_hb : b < 2 ^ 32)
    (hab : a ≤ b) :
    pulse_to_level a ≤ pulse_to_level b ∧
    pulse_to_level (to_uint32 (pulse_to_level a : Int)) = pulse_to_level a ∧
    pulse_to_level (to_uint32 (pulse_to_level b : Int)) = pulse_to_level b := by
  have hid : ∀ w : Nat, pulse_to_level (to_uint32 (pulse_to_level w : Int)) =
      pulse_to_level w := by
    intro w
    have hw : pulse_to_level w ≤ 20000 := by
      rw [pulse_to_level_eq]; split_ifs <;> omega
    rw [to_uint32_ofNat _ (by omega), pulse_to_level_eq (pulse_to_level w), if_pos hw]
  exact ⟨pulse_to_level_mono a b hab, hid a, hid b⟩

theorem pulse_to_level_mono_idem_witness :
    (1500 : Nat) < 2 ^ 32 ∧ (70000 : Nat) < 2 ^ 32 ∧ (1500 : Nat) ≤ 70000 ∧
    (pulse_to_level 1500 ≤ pulse_to_level 70000 ∧
     pulse_to_level (to_uint32 (pulse_to_level 1500 : Int)) = pulse_to_level 1500 ∧
     pulse_to_level (to_uint32 (pulse_to_level 70000 : Int)) = pulse_to_level 70000) :=
  ⟨by decide, by decide, by decide,
    pulse_to_level_mono_idem 1500 70000 (by decide) (by decide) (by decide)⟩

/-! ## Invariant of the reachable configurations -/

theorem inv_start : Inv start := by
  simp [Inv, start, led_writes, pwm_levels]

theorem inv_sweep_step (hw : PwmPin) (led : Bool) (out : List Event) (s p : Nat)
    (loc loc' : Loc) (hp1 : 500 ≤ p) (hp2 : p ≤ 2400) (h : Inv ⟨loc, led, out, s⟩)
    (hloc : match loc' with
      | Loc.entry => False
      | Loc.ascend_head p => 500 ≤ p ∧ p ≤ 2405
      | Loc.descend_head p => 495 ≤ p ∧ p ≤ 2400
      | Loc.ret => False
      | _ => True) :
    Inv ⟨loc', !led, out ++ spec_sweep_log hw led [p], s + 1⟩ := by
  obtain ⟨h1, h2, _, h4, _⟩ := h
  simp only at h1 h2 h4
  refine ⟨?_, ?_, ?_, ?_, ?_⟩
  · simp only [h1]
    rcases Nat.mod_two_eq_zero_or_one s with e | e
    · have e1 : (s + 1) % 2 = 1 := by omega
      simp [e, e1]
    · have e1 : (s + 1) % 2 = 0 := by omega
      simp [e, e1]
  · simp [led_writes_append, spec_sweep_log, led_writes, h2]
  · simp [led_writes_append, spec_sweep_log, led_writes]
  · intro l hl
    simp only [pwm_levels_append, spec_sweep_log, pwm_levels, List.mem_append,
      List.mem_singleton] at hl
    rcases hl with hl | hl
    · exact h4 l hl
    · omega
  · cases loc' <;> simp_all

theorem inv_step (hw : PwmPin) (c c' : Config) (h : Inv c) (hs : step hw c = some c') :
    Inv c' := by
  obtain ⟨loc, led, out, s⟩ := c
  cases loc with
  | entry =>
    obtain ⟨_, h2, h3, h4, h5⟩ := h
    simp only at h2 h3 h4 h5
    simp only [step, Option.some.injEq] at hs
    subst hs
    subst h5
    refine ⟨by simp, ?_, ?_, ?_, trivial⟩
    · simpa [led_writes_append, init_block, led_writes] using h2
    · simpa [led_writes_append, init_block, led_writes] using h3
    · intro l hl
      simp only [pwm_levels_append, init_block, pwm_levels, List.mem_append,
        List.mem_singleton] at hl
      rcases hl with hl | hl
      · exact h4 l hl
      · subst hl; decide
  | fixed_phase =>
    obtain ⟨h1, h2, h3, h4, _⟩ := h
    simp only at h1 h2 h3 h4
    simp only [step, Option.some.injEq] at hs
    subst hs
    refine ⟨h1, ?_, ?_, ?_, trivial⟩
    · simpa [led_writes_append, fixed_block, led_writes] using h2
    · simpa [led_writes_append, fixed_block, led_writes] using h3
    · intro l hl
      simp only [pwm_levels_append, fixed_block, pwm_levels, List.mem_append,
        List.mem_cons, List.mem_singleton, List.not_mem_nil, or_false] at hl
      rcases hl with hl | hl | hl | hl
      · exact h4 l hl
      all_goals subst hl; decide
  | while_head =>
    rw [step_while_head] at hs
    simp only [Option.some.injEq] at hs
    subst hs
    obtain ⟨h1, h2, h3, h4, _⟩ := h
    exact ⟨h1, h2, h3, h4, by simp⟩
  | ascend_head p =>
    have hb : 500 ≤ p ∧ p ≤ 2405 := h.2.2.2.2
    by_cases hp : p ≤ 2400
    · rw [step_ascend_body hw p led out s hp] at hs
      simp only [Option.some.injEq] at hs
      subst hs
      exact inv_sweep_step hw led out s p _ _ hb.1 hp h (by simp; omega)
    · have hs' : step hw ⟨Loc.ascend_head p, led, out, s⟩ =
          some ⟨Loc.descend_head 2400, led, out, s⟩ := by
        simp [step, SERVO_MAX_US, hp]
      rw [hs'] at hs
      simp only [Option.some.injEq] at hs
      subst hs
      obtain ⟨h1, h2, h3, h4, _⟩ := h
      exact ⟨h1, h2, h3, h4, by simp⟩
  | descend_head p =>
    have hb : 495 ≤ p ∧ p ≤ 2400 := h.2.2.2.2
    by_cases hp : 500 ≤ p
    · lift p to Nat using (by omega)
      rw [step_descend_body hw p led out s (by omega) (by omega)] at hs
      simp only [Option.some.injEq] at hs
      subst hs
      exact inv_sweep_step hw led out s p _ _ (by omega) (by omega) h (by simp; omega)
    · have hs' : step hw ⟨Loc.descend_head p, led, out, s⟩ =
          some ⟨Loc.while_head, led, out, s⟩ := by
        simp [step, SERVO_MIN_US, hp]
      rw [hs'] at hs
      simp only [Option.some.injEq] at hs
      subst hs
      obtain ⟨h1, h2, h3, h4, _⟩ := h
      exact ⟨h1, h2, h3, h4, trivial⟩
  | ret => exact absurd h.2.2.2.2 (by simp)

theorem step_isSome_of_inv (hw : PwmPin) (c : Config) (h : Inv c) :
    ∃ c', step hw c = some c' := by
  obtain ⟨loc, led, out, s⟩ := c
  cases loc with
  | ret => exact absurd h.2.2.2.2 (by simp)
  | entry => exact ⟨_, rfl⟩
  | fixed_phase => exact ⟨_, rfl⟩
  | while_head => exact ⟨_, rfl⟩
  | ascend_head p =>
    by_cases hp : p ≤ SERVO_MAX_US <;> simp [step, hp]
  | descend_head p =>
    by_cases hp : p ≥ (SERVO_MIN_US : Int) <;> simp [step, hp]

theorem inv_run (hw : PwmPin) (k : Nat) : ∀ c, Inv c → Inv (run hw k c) := by
  induction k with
  | zero => intro c h; exact h
  | succ k ih =>
    intro c h
    obtain ⟨c', hc'⟩ := step_isSome_of_inv hw c h
    rw [run_succ hw k c c' hc']
    exact ih c' (inv_step hw c c' h hc')

theorem inv_reachable (hw : PwmPin) (k : Nat) : Inv (run hw k start) :=
  inv_run hw k start inv_start

theorem step_sweep_steps (hw : PwmPin) (c c' : Config) (hs : step hw c = some c') :
    c.sweep_steps ≤ c'.sweep_steps ∧ c'.sweep_steps ≤ c.sweep_steps + 1 := by
  obtain ⟨loc, led, out, s⟩ := c
  cases loc with
  | ret => simp [step] at hs
  | entry => simp only [step, Option.some.injEq] at hs; subst hs; simp
  | fixed_phase => simp only [step, Option.some.injEq] at hs; subst hs; simp
  | while_head => rw [step_while_head] at hs; simp only [Option.some.injEq] at hs; subst hs; simp
  | ascend_head p =>
    simp only [step, sweep_body] at hs
    split at hs <;> (simp only [Option.some.injEq] at hs; subst hs; simp)
  | descend_head p =>
    simp only [step, sweep_body] at hs
    split at hs <;> (simp only [Option.some.injEq] at hs; subst hs; simp)

theorem run_succ_right (hw : PwmPin) (k : Nat) (c : Config) :
    run hw (k + 1) c = run hw 1 (run hw k c) := run_add hw k 1 c

theorem sweep_steps_succ (hw : PwmPin) (k : Nat) :
    (run hw k start).sweep_steps ≤ (run hw (k + 1) start).sweep_steps ∧
    (run hw (k + 1) start).sweep_steps ≤ (run hw k start).sweep_steps + 1 := by
  obtain ⟨c', hc'⟩ := step_isSome_of_inv hw _ (inv_reachable hw k)
  rw [run_succ_right, run_succ hw 0 _ c' hc']
  exact step_sweep_steps hw _ c' hc'

theorem sweep_steps_mono (hw : PwmPin) (j k : Nat) (h : j ≤ k) :
    (run hw j start).sweep_steps ≤ (run hw k start).sweep_steps := by
  induction k with
  | zero =>
    have : j = 0 := by omega
    subst this; exact Nat.le_refl _
  | succ k ih =>
    rcases Nat.lt_or_ge j (k + 1) with hlt | hge
    · exact Nat.le_trans (ih (by omega)) (sweep_steps_succ hw k).1
    · have : j = k + 1 := by omega
      subst this; exact Nat.le_refl _

theorem sweep_steps_below (hw : PwmPin) (k : Nat) :
    ∀ n, n ≤ (run hw k start).sweep_steps → ∃ j, (run hw j start).sweep_steps = n := by
  induction k with
  | zero =>
    intro n hn
    exact ⟨0, by simp [run, start] at hn ⊢; omega⟩
  | succ k ih =>
    intro n hn
    by_cases h : n ≤ (run hw k start).sweep_steps
    · exact ih n h
    · exact ⟨k + 1, by have := (sweep_steps_succ hw k).2; omega⟩

/-- Every number of sweep steps is reached. -/
theorem sweep_steps_surjective (hw : PwmPin) (n : Nat) :
    ∃ k, (run hw k start).sweep_steps = n := by
  apply sweep_steps_below hw (2 + 765 * n) n
  rw [run_passes]
  simp only
  omega

/-- For every `n` some block takes the count of sweep steps from `n` to
`n + 1`. -/
theorem sweep_step_taken (hw : PwmPin) (n : Nat) :
    ∃ k, (run hw k start).sweep_steps = n ∧
      (run hw (k + 1) start).sweep_steps = n + 1 := by
  have hex := sweep_steps_surjective hw (n + 1)
  have hfind := Nat.find_spec hex
  have hmin := fun j => Nat.find_min hex (m := j)
  generalize Nat.find hex = k at hfind hmin
  cases k with
  | zero => simp [run, start] at hfind
  | succ j =>
    refine ⟨j, ?_, hfind⟩
    have h1 := sweep_steps_succ hw j
    have h2 := hmin j (Nat.lt_succ_self j)
    omega

/-- C5: the fixed-position phase ends with no sweep step and no LED write;
every number `N` of sweep steps is reached, and whenever `N` sweep steps have
run the LED state is `false XOR (N mod 2 = 1)`, exactly `N` values have been
written to the LED pin, and for `N ≥ 1` the last of them is the LED state. -/
theorem led_inverts_once_per_sweep_step (hw : PwmPin) (N : Nat) :
    ((run hw 2 start).loc = Loc.while_head ∧ (run hw 2 start).sweep_steps = 0 ∧
      led_writes (run hw 2 start).out = []) ∧
    (∃ k, (run hw k start).sweep_steps = N) ∧
    (∀ k, (run hw k start).sweep_steps = N →
      (run hw k start).led_state = xor false (decide (N % 2 = 1)) ∧
      (led_writes (run hw k start).out).length = N ∧
      (led_writes (run hw k start).out).getLast? =
        if N = 0 then none else some (xor false (decide (N % 2 = 1)))) := by
  refine ⟨⟨rfl, rfl, rfl⟩, sweep_steps_surjective hw N, ?_⟩
  intro k hk
  obtain ⟨h1, h2, h3, _, _⟩ := inv_reachable hw k
  rw [hk] at h1 h2 h3
  refine ⟨by simpa using h1, h2, ?_⟩
  rw [h3, h1]
  simp

/-- The block run from a configuration that satisfies the invariant appends
to the duty levels exactly the widths it requested. -/
theorem step_writes_requested (hw : PwmPin) (c c' : Config) (h : Inv c)
    (hs : step hw c = some c') :
    (pwm_levels c'.out).map Int.ofNat =
      (pwm_levels c.out).map Int.ofNat ++ requested_pulse c.loc := by
  obtain ⟨loc, led, out, s⟩ := c
  cases loc with
  | ret => simp [step] at hs
  | entry =>
    simp only [step, Option.some.injEq] at hs
    subst hs
    simp only [pwm_levels_append, List.map_append, requested_pulse]
    rfl
  | fixed_phase =>
    simp only [step, Option.some.injEq] at hs
    subst hs
    simp only [pwm_levels_append, List.map_append, requested_pulse]
    rfl
  | while_head =>
    rw [step_while_head] at hs
    simp only [Option.some.injEq] at hs
    subst hs
    simp [requested_pulse]
  | ascend_head p =>
    by_cases hp : p ≤ 2400
    · rw [step_ascend_body hw p led out s hp] at hs
      simp only [Option.some.injEq] at hs
      subst hs
      simp [pwm_levels_append, spec_sweep_log, pwm_levels, requested_pulse,
        SERVO_MAX_US, hp]
    · have hs' : step hw ⟨Loc.ascend_head p, led, out, s⟩ =
          some ⟨Loc.descend_head 2400, led, out, s⟩ := by
        simp [step, SERVO_MAX_US, hp]
      rw [hs'] at hs
      simp only [Option.some.injEq] at hs
      subst hs
      simp [requested_pulse, SERVO_MAX_US, hp]
  | descend_head p =>
    have hb : 495 ≤ p ∧ p ≤ 2400 := h.2.2.2.2
    by_cases hp : 500 ≤ p
    · lift p to Nat using (by omega)
      rw [step_descend_body hw p led out s (by omega) (by omega)] at hs
      simp only [Option.some.injEq] at hs
      subst hs
      simp [pwm_levels_append, spec_sweep_log, pwm_levels, requested_pulse,
        SERVO_MIN_US, hp]
    · have hs' : step hw ⟨Loc.descend_head p, led, out, s⟩ =
          some ⟨Loc.while_head, led, out, s⟩ := by
        simp [step, SERVO_MIN_US, hp]
      rw [hs'] at hs
      simp only [Option.some.injEq] at hs
      subst hs
      simp [requested_pulse, SERVO_MIN_US, hp]

/-- C7: every block appends to the duty levels exactly the widths it
requested (the arguments of `pulse_to_level` on lines 59, 68, 72, 76, 83 and
92, before conversion), so every level written equals the width requested
at that step, and the log starts empty; every duty level in the log of a
reachable configuration lies in `[500, 2400]`; at the head of the ascend
loop the counter is in `[500, 2405]`, adding the step does not wrap, and a
width that passes the test is returned unchanged by `pulse_to_level` (the
clamp is not taken); at the head of the descend loop the counter is in
`[495, 2400]`, subtracting the step stays in `int32_t`, and a width that
passes the test is non-negative, survives the conversion to `uint32_t` and is
returned unchanged by `pulse_to_level`. -/
theorem duty_levels_in_servo_range (hw : PwmPin) (k : Nat) :
    (pwm_levels (run hw 0 start).out = [] ∧
      (pwm_levels (run hw (k + 1) start).out).map Int.ofNat =
        (pwm_levels (run hw k start).out).map Int.ofNat ++
          requested_pulse (run hw k start).loc) ∧
    (∀ l ∈ pwm_levels (run hw k start).out, 500 ≤ l ∧ l ≤ 2400) ∧
    (∀ p : Nat, (run hw k start).loc = Loc.ascend_head p →
      500 ≤ p ∧ p ≤ 2405 ∧ (p + STEP_US) % 2 ^ 32 = p + STEP_US ∧
      (p ≤ SERVO_MAX_US →
        clamped_pulse p = p ∧ pulse_to_level p = p ∧ p ≤ 2400)) ∧
    (∀ p : Int, (run hw k start).loc = Loc.descend_head p →
      495 ≤ p ∧ p ≤ 2400 ∧ to_int32 (p - (STEP_US : Int)) = p - (STEP_US : Int) ∧
      (p ≥ (SERVO_MIN_US : Int) →
        0 ≤ p ∧ (to_uint32 p : Int) = p ∧
        clamped_pulse (to_uint32 p) = to_uint32 p ∧
        pulse_to_level (to_uint32 p) = to_uint32 p ∧ 500 ≤ to_uint32 p)) := by
  have hreq : (pwm_levels (run hw (k + 1) start).out).map Int.ofNat =
      (pwm_levels (run hw k start).out).map Int.ofNat ++
        requested_pulse (run hw k start).loc := by
    obtain ⟨c', hc'⟩ := step_isSome_of_inv hw _ (inv_reachable hw k)
    rw [run_succ_right, run_succ hw 0 _ c' hc']
    exact step_writes_requested hw _ c' (inv_reachable hw k) hc'
  obtain ⟨_, _, _, h4, h5⟩ := inv_reachable hw k
  refine ⟨⟨rfl, hreq⟩, h4, ?_, ?_⟩
  · intro p hp
    rw [hp] at h5
    simp only at h5
    refine ⟨h5.1, h5.2, by simp only [STEP_US]; omega, ?_⟩
    intro hle
    simp only [SERVO_MAX_US] at hle
    refine ⟨?_, ?_, hle⟩
    · simp only [clamped_pulse, PERIOD_US]; split_ifs <;> omega
    · rw [pulse_to_level_eq]; split_ifs <;> omega
  · intro p hp
    rw [hp] at h5
    simp only at h5
    refine ⟨h5.1, h5.2, by simp only [to_int32, STEP_US]; omega, ?_⟩
    intro hge
    simp only [SERVO_MIN_US, Nat.cast_ofNat, ge_iff_le] at hge
    lift p to Nat using (by omega)
    have e : to_uint32 (p : Int) = p := to_uint32_ofNat p (by omega)
    rw [e]
    refine ⟨by omega, rfl, ?_, ?_, by omega⟩
    · simp only [clamped_pulse, PERIOD_US]; split_ifs <;> omega
    · rw [pulse_to_level_eq]; split_ifs <;> omega

/-- C8: a reachable configuration always has a next block and is never at
`return 0`; pass `m + 1` of the loop starts after `2 + 765 * m` blocks, its
ascend sub-phase runs 381 sweep steps and hands over to the descend
sub-phase, which runs 381 sweep steps and hands back to the loop head; and
for every `n` the sweep step number `n + 1` is taken. -/
theorem sweep_never_ends (hw : PwmPin) :
    (∀ k, (step hw (run hw k start)).isSome = true ∧
      (run hw k start).loc ≠ Loc.ret) ∧
    (∀ m,
      (run hw (2 + 765 * m) start).loc = Loc.while_head ∧
      (run hw (2 + 765 * m) start).sweep_steps = 762 * m ∧
      (run hw (2 + 765 * m + 1) start).loc = Loc.ascend_head 500 ∧
      (run hw (2 + 765 * m + 383) start).loc = Loc.descend_head 2400 ∧
      (run hw (2 + 765 * m + 383) start).sweep_steps = 762 * m + 381 ∧
      (run hw (2 + 765 * m + 765) start).loc = Loc.while_head ∧
      (run hw (2 + 765 * m + 765) start).sweep_steps = 762 * m + 762) ∧
    (∀ n, ∃ k, (run hw k start).sweep_steps = n ∧
      (run hw (k + 1) start).sweep_steps = n + 1) := by
  refine ⟨?_, ?_, ?_⟩
  · intro k
    have hinv := inv_reachable hw k
    obtain ⟨c', hc'⟩ := step_isSome_of_inv hw _ hinv
    refine ⟨by simp [hc'], ?_⟩
    intro hret
    have h5 := hinv.2.2.2.2
    rw [hret] at h5
    exact h5
  · intro m
    have h := run_passes hw m
    refine ⟨by rw [h], by rw [h], ?_, ?_, ?_, ?_, ?_⟩
    · rw [run_add, h, run_succ hw 0 _ _ (step_while_head hw _ _ _)]; rfl
    · rw [run_add, h, run_ascend_phase]
    · rw [run_add, h, run_ascend_phase]
    · rw [run_add, h, run_pass]
    · rw [run_add, h, run_pass]
  · intro n
    exact sweep_step_taken hw n

/-- C6, as stated, fails: five sweep steps have run after 8 blocks and at no
other time (on slice 3 channel A, those of GPIO 22), and the duty levels
written since the configuration block are then not
2400, 1470, 500, 500, 505, 510, 515, 520, 525. -/
theorem example_scenario_as_stated_fails :
    (run ⟨3, 0⟩ 8 start).sweep_steps = 5 ∧
    (∀ k, (run ⟨3, 0⟩ k start).sweep_steps = 5 → k = 8) ∧
    (pwm_levels (run ⟨3, 0⟩ 8 start).out).tail ≠
      [2400, 1470, 500, 500, 505, 510, 515, 520, 525] := by
  refine ⟨by decide, ?_, by decide⟩
  intro k hk
  rcases Nat.lt_or_ge k 8 with h | h
  · have h1 := sweep_steps_mono ⟨3, 0⟩ k 7 (by omega)
    have h2 : (run ⟨3, 0⟩ 7 start).sweep_steps = 4 := by decide
    omega
  · rcases Nat.lt_or_ge 8 k with h' | h'
    · have h1 := sweep_steps_mono ⟨3, 0⟩ 9 k (by omega)
      have h2 : (run ⟨3, 0⟩ 9 start).sweep_steps = 6 := by decide
      omega
    · omega

end ServoPwm
